import Mathlib

/-!
Verification of the FileEncryptor repository (passwordcrc-batch.py,
passwordcrc-decrypt.py, passwordcrc-date.py).

The programs derive a password from a file's CRC32 checksum, wrap the file
in an uncompressed AES-encrypted zip archive, and recover the password at
decrypt time by reading the CRC32 field straight out of the zip local file
header.  Files are modelled as lists of byte values (`List Nat`, each
element below 256); the file system is a partial map from path to bytes.
-/

namespace FileEnc

/-- 0xFFFFFFFF, the 32-bit mask applied by `calculate_crc32` and the
pre/post conditioning constant of zlib's CRC32. -/
def MASK32 : Nat := 0xFFFFFFFF

/-- The reflected CRC32 polynomial used by zlib. -/
def CRCPOLY : Nat := 0xEDB88320

/-- One bit step of the reflected CRC32 algorithm. -/
def crcRound (r : Nat) : Nat := if r % 2 = 1 then (r / 2) ^^^ CRCPOLY else r / 2

/-- Fold one byte into the CRC accumulator: xor it in, then eight bit steps. -/
def crcByte (c b : Nat) : Nat :=
  crcRound (crcRound (crcRound (crcRound (crcRound (crcRound (crcRound (crcRound (c ^^^ b))))))))

/-- The raw (unconditioned) CRC fold over a byte sequence. -/
def crcUpdate (c : Nat) (data : List Nat) : Nat := data.foldl crcByte c

/-- `zlib.crc32(data, crc)`: the running CRC update used at
passwordcrc-batch.py line 19 (and passwordcrc-date.py line 19); zlib
conditions the accumulator by xor with 0xFFFFFFFF before and after the
raw fold. -/
def zlib_crc32 (data : List Nat) (crc : Nat) : Nat :=
  crcUpdate (crc ^^^ MASK32) data ^^^ MASK32

/-- Split a byte sequence into consecutive chunks of size `n`, as the
`iter(lambda: f.read(n), b'')` loop delivers them. -/
def chunksOf (n : Nat) (l : List Nat) : List (List Nat) :=
  match n, l with
  | _, [] => []
  | 0, _ => []
  | m+1, a :: as => ((a :: as).take (m+1)) :: chunksOf (m+1) ((a :: as).drop (m+1))
termination_by l.length
decreasing_by simp [List.length_drop]; omega

/-- `calculate_crc32` of passwordcrc-batch.py lines 14-21 (identical in
passwordcrc-date.py): start from 0, fold each chunk of the file through
`zlib.crc32`, and mask the result to 32 bits.  The chunk size is a
parameter; the source uses 8192. -/
def calculate_crc32 (chunkSize : Nat) (data : List Nat) : Nat :=
  ((chunksOf chunkSize data).foldl (fun crc chunk => zlib_crc32 chunk crc) 0) &&& MASK32

theorem xor_mask_cancel (x : Nat) : x ^^^ MASK32 ^^^ MASK32 = x := by
  rw [Nat.xor_assoc, Nat.xor_self, Nat.xor_zero]

theorem zlib_crc32_nil (c : Nat) : zlib_crc32 [] c = c := by
  unfold zlib_crc32 crcUpdate
  rw [List.foldl_nil]
  exact xor_mask_cancel c

theorem zlib_crc32_append (a b : List Nat) (c : Nat) :
    zlib_crc32 b (zlib_crc32 a c) = zlib_crc32 (a ++ b) c := by
  unfold zlib_crc32 crcUpdate
  rw [xor_mask_cancel, List.foldl_append]

theorem chunksOf_nil (n : Nat) : chunksOf n [] = [] := by
  cases n <;> simp [chunksOf]

theorem chunksOf_cons (m a : Nat) (as : List Nat) :
    chunksOf (m+1) (a :: as) =
      ((a :: as).take (m+1)) :: chunksOf (m+1) ((a :: as).drop (m+1)) := by
  rw [chunksOf]

theorem chunks_foldl_eq_aux (n : Nat) (hn : 0 < n) :
    ∀ (N : Nat) (l : List Nat), l.length ≤ N → ∀ c : Nat,
      (chunksOf n l).foldl (fun crc chunk => zlib_crc32 chunk crc) c = zlib_crc32 l c := by
  intro N
  induction N with
  | zero =>
    intro l hl c
    have hnil : l = [] := List.eq_nil_of_length_eq_zero (Nat.le_zero.mp hl)
    subst hnil
    rw [chunksOf_nil, List.foldl_nil, zlib_crc32_nil]
  | succ N ih =>
    intro l hl c
    match l with
    | [] => rw [chunksOf_nil, List.foldl_nil, zlib_crc32_nil]
    | a :: as =>
      match n, hn with
      | m+1, _ =>
        rw [chunksOf_cons, List.foldl_cons]
        have hdrop : ((a :: as).drop (m+1)).length ≤ N := by
          simp only [List.length_drop, List.length_cons]
          simp only [List.length_cons] at hl
          omega
        rw [ih _ hdrop, zlib_crc32_append, List.take_append_drop]

/-- For any positive chunk size, the chunked fold equals the one-shot CRC. -/
theorem calculate_crc32_eq_whole (n : Nat) (hn : 0 < n) (data : List Nat) :
    calculate_crc32 n data = zlib_crc32 data 0 &&& MASK32 := by
  unfold calculate_crc32
  rw [chunks_foldl_eq_aux n hn data.length data le_rfl 0]

theorem calculate_crc32_lt (n : Nat) (data : List Nat) :
    calculate_crc32 n data < 2 ^ 32 := by
  unfold calculate_crc32
  have h := Nat.and_le_right
    (n := (chunksOf n data).foldl (fun crc chunk => zlib_crc32 chunk crc) 0) (m := MASK32)
  have hm : MASK32 < 2 ^ 32 := by decide
  exact Nat.lt_of_le_of_lt h hm

/-- The bytes of ASCII "hello", the spec's worked scenario input. -/
def helloBytes : List Nat := [104, 101, 108, 108, 111]

/-- C3: Checksum determinism and chunk invariance — `calculate_crc32` is a
pure function of the bytes (determinism is inherent in the embedding), any
two positive chunk sizes give the same value, that value is the CRC32 of
the whole sequence seeded with 0 and masked to 32 bits, and it is a 32-bit
unsigned value. -/
theorem crc32_chunk_invariance (B : List Nat) (n m : Nat) (hn : 0 < n) (hm : 0 < m) :
    calculate_crc32 n B = calculate_crc32 m B ∧
    calculate_crc32 n B = zlib_crc32 B 0 &&& MASK32 ∧
    calculate_crc32 n B < 2 ^ 32 := by
  refine ⟨?_, calculate_crc32_eq_whole n hn B, calculate_crc32_lt n B⟩
  rw [calculate_crc32_eq_whole n hn B, calculate_crc32_eq_whole m hm B]

/-- C3 witness: instantiated on the bytes of "hello" with the reference
chunk size 8192 against chunk size 1. -/
theorem crc32_chunk_invariance_witness :
    calculate_crc32 8192 helloBytes = calculate_crc32 1 helloBytes ∧
    calculate_crc32 8192 helloBytes = zlib_crc32 helloBytes 0 &&& MASK32 ∧
    calculate_crc32 8192 helloBytes < 2 ^ 32 :=
  crc32_chunk_invariance helloBytes 8192 1 (by decide) (by decide)

/-! ### Password derivation: `format(crc32_value, '08x').encode()` -/

/-- One lowercase hexadecimal digit character: 0-9 then a-f. -/
def hexChar (d : Nat) : Char := Char.ofNat (if d < 10 then 48 + d else 87 + d)

/-- The minimal (no leading zero) base-16 representation of `v`, most
significant digit first, as Python's `format(v, 'x')` produces it. -/
def hexRepr (v : Nat) : List Char :=
  if _h : v < 16 then [hexChar v]
  else hexRepr (v / 16) ++ [hexChar (v % 16)]
termination_by v
decreasing_by exact Nat.div_lt_self (by omega) (by omega)

/-- `format(v, '08x')`: the minimal lowercase hex representation of `v`,
left-padded with '0' to a minimum width of 8 — passwordcrc-batch.py line 28
and passwordcrc-decrypt.py line 45. -/
def format08x (v : Nat) : List Char :=
  List.replicate (8 - (hexRepr v).length) '0' ++ hexRepr v

/-- Exactly `k` hex digits of `v`, most significant nibble first. -/
def fixedHex : Nat → Nat → List Char
  | 0, _ => []
  | k+1, v => fixedHex k (v / 16) ++ [hexChar (v % 16)]

/-- Modelled from the spec: the password convention — "exactly 8 lowercase
hex characters ... equal to the file's CRC32 in big-endian hex
representation (standard hex formatting of the 32-bit value)", i.e. the
eight nibbles of the 32-bit value from most significant to least
significant. -/
def specHex8 (v : Nat) : List Char := fixedHex 8 v

/-- The Writer's password derivation (passwordcrc-batch.py line 28). -/
def pw_writer (v : Nat) : List Char := format08x v

/-- The Extractor's password derivation (passwordcrc-decrypt.py line 45). -/
def pw_extractor (v : Nat) : List Char := format08x v

/-- Membership test for the character class `[0-9a-f]`. -/
def isHexLower (c : Char) : Bool :=
  (decide ('0' ≤ c) && decide (c ≤ '9')) || (decide ('a' ≤ c) && decide (c ≤ 'f'))

theorem hexChar_zero : hexChar 0 = '0' := by decide

theorem fixedHex_zero_val (k : Nat) : fixedHex k 0 = List.replicate k '0' := by
  induction k with
  | zero => rfl
  | succ k ih =>
    rw [List.replicate_succ']
    show fixedHex k (0 / 16) ++ [hexChar (0 % 16)] = _
    rw [Nat.zero_div, Nat.zero_mod, ih, hexChar_zero]

theorem fixedHex_length (k v : Nat) : (fixedHex k v).length = k := by
  induction k generalizing v with
  | zero => rfl
  | succ k ih =>
    show (fixedHex k (v / 16) ++ [hexChar (v % 16)]).length = k + 1
    rw [List.length_append, ih, List.length_singleton]

theorem hexRepr_small (v : Nat) (h : v < 16) : hexRepr v = [hexChar v] := by
  rw [hexRepr, dif_pos h]

theorem hexRepr_large (v : Nat) (h : ¬ v < 16) :
    hexRepr v = hexRepr (v / 16) ++ [hexChar (v % 16)] := by
  rw [hexRepr, dif_neg h]

theorem pad_hexRepr_eq_fixedHex :
    ∀ (k v : Nat), v < 16 ^ (k + 1) →
      List.replicate ((k + 1) - (hexRepr v).length) '0' ++ hexRepr v = fixedHex (k + 1) v := by
  intro k
  induction k with
  | zero =>
    intro v hv
    have h16 : v < 16 := by norm_num at hv; exact hv
    rw [hexRepr_small v h16]
    show _ ++ _ = fixedHex 0 (v / 16) ++ [hexChar (v % 16)]
    rw [Nat.mod_eq_of_lt h16]
    simp [fixedHex]
  | succ k ih =>
    intro v hv
    by_cases h16 : v < 16
    · rw [hexRepr_small v h16]
      show _ = fixedHex (k + 1) (v / 16) ++ [hexChar (v % 16)]
      rw [Nat.div_eq_of_lt h16, Nat.mod_eq_of_lt h16, fixedHex_zero_val]
      simp
    · rw [hexRepr_large v h16]
      have hdiv : v / 16 < 16 ^ (k + 1) := by
        rw [Nat.div_lt_iff_lt_mul (by norm_num : 0 < 16)]
        calc v < 16 ^ (k + 2) := hv
          _ = 16 ^ (k + 1) * 16 := by ring
      have hlen : (hexRepr (v / 16)).length ≤ k + 1 := by
        have := ih (v / 16) hdiv
        have hl := congrArg List.length this
        rw [List.length_append, List.length_replicate, fixedHex_length] at hl
        omega
      show List.replicate ((k + 2) - (hexRepr (v / 16) ++ [hexChar (v % 16)]).length) '0' ++ _ = _
      rw [List.length_append, List.length_singleton]
      have harith : (k + 2) - ((hexRepr (v / 16)).length + 1) = (k + 1) - (hexRepr (v / 16)).length := by
        omega
      rw [harith, ← List.append_assoc, ih (v / 16) hdiv]
      rfl

/-- In the range of a 32-bit value, `format(v, '08x')` is exactly the
eight big-endian nibbles of `v`. -/
theorem format08x_eq_specHex8 (v : Nat) (hv : v < 2 ^ 32) : format08x v = specHex8 v := by
  have h : v < 16 ^ 8 := by norm_num at hv ⊢; exact hv
  exact pad_hexRepr_eq_fixedHex 7 v h

theorem fixedHex_mem (k v : Nat) (c : Char) (hc : c ∈ fixedHex k v) :
    ∃ d : Nat, d < 16 ∧ c = hexChar d := by
  induction k generalizing v with
  | zero => cases hc
  | succ k ih =>
    have : c ∈ fixedHex k (v / 16) ++ [hexChar (v % 16)] := hc
    rcases List.mem_append.mp this with h | h
    · exact ih (v / 16) h
    · exact ⟨v % 16, Nat.mod_lt v (by omega), List.mem_singleton.mp h⟩

theorem hexChar_props : ∀ d : Nat, d < 16 → isHexLower (hexChar d) = true ∧ (hexChar d).toNat < 128 := by
  decide

/-- C2: Password format invariant — for every 32-bit checksum value, the
derived password has exactly 8 characters, each in `[0-9a-f]` (lowercase
hex) and within the ASCII range, it equals the big-endian zero-padded
standard hex representation of the value, and the Writer and the Extractor
derive it by the same rule. -/
theorem password_format_invariant (v : Nat) (hv : v < 2 ^ 32) :
    (format08x v).length = 8 ∧
    (∀ c ∈ format08x v, isHexLower c = true) ∧
    (∀ c ∈ format08x v, c.toNat < 128) ∧
    format08x v = specHex8 v ∧
    pw_writer v = pw_extractor v := by
  have heq := format08x_eq_specHex8 v hv
  refine ⟨?_, ?_, ?_, heq, rfl⟩
  · rw [heq]; exact fixedHex_length 8 v
  · intro c hc
    rw [heq] at hc
    obtain ⟨d, hd, rfl⟩ := fixedHex_mem 8 v c hc
    exact (hexChar_props d hd).1
  · intro c hc
    rw [heq] at hc
    obtain ⟨d, hd, rfl⟩ := fixedHex_mem 8 v c hc
    exact (hexChar_props d hd).2

/-- C2 witness: instantiated at the spec's worked value 0x3610A686, the
CRC32 of "hello". -/
theorem password_format_invariant_witness :
    (format08x 0x3610A686).length = 8 ∧
    (∀ c ∈ format08x 0x3610A686, isHexLower c = true) ∧
    (∀ c ∈ format08x 0x3610A686, c.toNat < 128) ∧
    format08x 0x3610A686 = specHex8 0x3610A686 ∧
    pw_writer 0x3610A686 = pw_extractor 0x3610A686 :=
  password_format_invariant 0x3610A686 (by norm_num)

/-! ### Zip local-file-header reading and the archive model -/

/-- The zip local-file-header signature `PK\x03\x04`. -/
def sigBytes : List Nat := [0x50, 0x4B, 0x03, 0x04]

/-- Little-endian 4-byte encoding of a 32-bit value. -/
def toLE4 (v : Nat) : List Nat :=
  [v % 256, v / 256 % 256, v / 65536 % 256, v / 16777216 % 256]

/-- `int.from_bytes(bs, byteorder='little')`: little-endian value of a
byte string of any length (0 for the empty string). -/
def fromLE (bs : List Nat) : Nat := bs.foldr (fun b acc => b + 256 * acc) 0

/-- `calculate_crc32_from_zip` of passwordcrc-decrypt.py lines 14-34: read
4 signature bytes (`None` on mismatch), seek 10 bytes forward, then read
up to 4 bytes at file offset 14 and decode them little-endian.  A read
past end-of-file simply returns the bytes that remain. -/
def calculate_crc32_from_zip (file : List Nat) : Option Nat :=
  if file.take 4 = sigBytes then some (fromLE ((file.drop 14).take 4)) else none

/-- An AES-encrypted zip entry payload, modelled as an ideal cipher: the
ciphertext is opaque and determines the plaintext exactly when opened with
the password it was written under. -/
structure EncPayload where
  pw : List Char
  plain : List Nat
deriving DecidableEq

/-- A file on disk as the decrypt pipeline sees it: its raw bytes (what
`open(path, 'rb')` reads) plus, when the file is a pyzipper-readable AES
zip, its single entry (arcname and payload). -/
structure DiskFile where
  raw : List Nat
  zipEntry : Option (String × EncPayload)
deriving DecidableEq

/-- Modelled from the spec: opening an AES zip entry with a candidate
password — "Wrong-password failures ... surface as a generic decrypt
error"; the correct password yields the original plaintext. -/
def aesDecrypt (pw : List Char) (e : EncPayload) : Option (List Nat) :=
  if pw = e.pw then some e.plain else none

/-- Modelled from the spec: `pyzipper.AESZipFile(..., 'w',
compression=ZIP_STORED, encryption=WZ_AES)` writing one entry — the local
file header starts with the signature, then 10 bytes of
version/flags/method/time metadata (`meta`, library-chosen), then the
CRC32 of the pre-encryption content little-endian ("written by the
underlying archive library as the plaintext checksum of the original
(pre-encryption) file content"), then the remaining archive bytes
(`rest`); the entry payload is stored uncompressed and AES-encrypted
under `password`. -/
def pyzipper_write (password : List Char) (fileName : String) (content : List Nat)
    (meta rest : List Nat) : DiskFile :=
  { raw := sigBytes ++ meta ++ toLE4 (zlib_crc32 content 0 &&& MASK32) ++ rest
    zipEntry := some (fileName, ⟨password, content⟩) }

/-- `create_encrypted_zip` of passwordcrc-batch.py lines 24-48: compute the
file's CRC32 (chunk size 8192), derive the password as its 8-digit
lowercase hex, and write a single stored AES-encrypted entry under the
original base name; returns the archive and the checksum. -/
def create_encrypted_zip (content : List Nat) (fileName : String)
    (meta rest : List Nat) : DiskFile × Nat :=
  let crc32_value := calculate_crc32 8192 content
  let password := pw_writer crc32_value
  (pyzipper_write password fileName content meta rest, crc32_value)

/-- `extract_encrypted_zip` of passwordcrc-decrypt.py lines 37-74 (without
the delete option): recover the stored CRC32 from the local header (failure
aborts before any decryption), derive the password from it, and open the
archive's entry with that password; `some` carries the extracted entry
(arcname and bytes), `none` is the `return False` failure path. -/
def extract_encrypted_zip (d : DiskFile) : Option (String × List Nat) :=
  match calculate_crc32_from_zip d.raw with
  | none => none
  | some crc32_value =>
    match d.zipEntry with
    | none => none
    | some (name, e) =>
      match aesDecrypt (pw_extractor crc32_value) e with
      | none => none
      | some plain => some (name, plain)

theorem fromLE_toLE4 (v : Nat) (hv : v < 2 ^ 32) : fromLE (toLE4 v) = v := by
  show v % 256 + 256 * (v / 256 % 256 + 256 * (v / 65536 % 256 + 256 * (v / 16777216 % 256 + 256 * 0))) = v
  omega

theorem raw_take4 (meta mid rest : List Nat) :
    (sigBytes ++ meta ++ mid ++ rest).take 4 = sigBytes := by
  show (0x50 :: 0x4B :: 0x03 :: 0x04 :: (meta ++ mid ++ rest)).take 4 = sigBytes
  rfl

theorem raw_drop14 (meta mid rest : List Nat) (hmeta : meta.length = 10) :
    (sigBytes ++ meta ++ mid ++ rest).drop 14 = mid ++ rest := by
  have h14 : (sigBytes ++ meta).length = 14 := by
    rw [List.length_append, hmeta]; rfl
  calc (sigBytes ++ meta ++ mid ++ rest).drop 14
      = ((sigBytes ++ meta) ++ (mid ++ rest)).drop 14 := by
        rw [List.append_assoc, List.append_assoc]
    _ = mid ++ rest := List.drop_left' h14

/-- The header reader recovers the checksum a `pyzipper_write` archive
stores. -/
theorem header_reader_on_written (password : List Char) (fileName : String)
    (content meta rest : List Nat) (hmeta : meta.length = 10) :
    calculate_crc32_from_zip (pyzipper_write password fileName content meta rest).raw
      = some (zlib_crc32 content 0 &&& MASK32) := by
  unfold pyzipper_write calculate_crc32_from_zip
  rw [if_pos (raw_take4 meta _ rest)]
  rw [raw_drop14 meta _ rest hmeta]
  have hlt : zlib_crc32 content 0 &&& MASK32 < 2 ^ 32 := by
    have h := Nat.and_le_right (n := zlib_crc32 content 0) (m := MASK32)
    have hm : MASK32 < 2 ^ 32 := by decide
    exact Nat.lt_of_le_of_lt h hm
  rw [List.take_left' (by rfl : (toLE4 (zlib_crc32 content 0 &&& MASK32)).length = 4)]
  rw [fromLE_toLE4 _ hlt]

/-- C1: Round-trip law — extracting the archive produced by encrypting a
file reproduces the original bytes (and original name) exactly, and the
checksum the Header Reader recovers from that archive's local header
equals the checksum the Checksum Engine computes directly from the file.
`meta` stands for the 10 library-chosen header bytes between signature and
CRC field, `rest` for the archive bytes after the CRC field. -/
theorem encrypt_decrypt_round_trip (content : List Nat) (fileName : String)
    (meta rest : List Nat) (hmeta : meta.length = 10) :
    extract_encrypted_zip (create_encrypted_zip content fileName meta rest).1
      = some (fileName, content) ∧
    calculate_crc32_from_zip (create_encrypted_zip content fileName meta rest).1.raw
      = some (calculate_crc32 8192 content) := by
  have hcrc : calculate_crc32 8192 content = zlib_crc32 content 0 &&& MASK32 :=
    calculate_crc32_eq_whole 8192 (by omega) content
  have hhdr := header_reader_on_written (pw_writer (calculate_crc32 8192 content))
    fileName content meta rest hmeta
  constructor
  · show extract_encrypted_zip
      (pyzipper_write (pw_writer (calculate_crc32 8192 content)) fileName content meta rest)
        = some (fileName, content)
    unfold extract_encrypted_zip
    rw [hhdr, ← hcrc]
    show (match aesDecrypt (pw_extractor (calculate_crc32 8192 content))
        ⟨pw_writer (calculate_crc32 8192 content), content⟩ with
      | none => none
      | some plain => some (fileName, plain)) = some (fileName, content)
    unfold aesDecrypt
    simp [pw_extractor, pw_writer]
  · rw [hcrc]; exact hhdr

/-- C1 witness: the spec's worked scenario — "report.txt" containing
"hello", header metadata bytes taken as zeros. -/
theorem encrypt_decrypt_round_trip_witness :
    extract_encrypted_zip
        (create_encrypted_zip helloBytes "report.txt" (List.replicate 10 0) []).1
      = some ("report.txt", helloBytes) ∧
    calculate_crc32_from_zip
        (create_encrypted_zip helloBytes "report.txt" (List.replicate 10 0) []).1.raw
      = some (calculate_crc32 8192 helloBytes) :=
  encrypt_decrypt_round_trip helloBytes "report.txt" (List.replicate 10 0) [] (by decide)

/-- C4: Header Reader layout — on a file that begins with the local-header
signature followed by 10 metadata bytes and then bytes `b0 b1 b2 b3` (file
offsets 14 to 17), the reader skips exactly the 10 bytes after the
signature and returns those 4 bytes decoded as a little-endian unsigned
32-bit integer, touching nothing else in the file. -/
theorem header_reader_layout (meta : List Nat) (b0 b1 b2 b3 : Nat) (rest : List Nat)
    (hmeta : meta.length = 10) (h0 : b0 < 256) (h1 : b1 < 256) (h2 : b2 < 256) (h3 : b3 < 256) :
    calculate_crc32_from_zip (sigBytes ++ meta ++ [b0, b1, b2, b3] ++ rest)
        = some (b0 + 256 * b1 + 65536 * b2 + 16777216 * b3) ∧
    b0 + 256 * b1 + 65536 * b2 + 16777216 * b3 < 2 ^ 32 := by
  constructor
  · unfold calculate_crc32_from_zip
    rw [if_pos (raw_take4 meta _ rest), raw_drop14 meta _ rest hmeta]
    rw [List.take_left' (by rfl : ([b0, b1, b2, b3] : List Nat).length = 4)]
    show some (b0 + 256 * (b1 + 256 * (b2 + 256 * (b3 + 256 * 0)))) = _
    ring_nf
  · omega

/-- C4 witness: a header whose CRC field bytes are 0x86 0xA6 0x10 0x36,
decoding to 0x3610A686. -/
theorem header_reader_layout_witness :
    calculate_crc32_from_zip
        (sigBytes ++ List.replicate 10 0 ++ [0x86, 0xA6, 0x10, 0x36] ++ [9, 9])
      = some (0x86 + 256 * 0xA6 + 65536 * 0x10 + 16777216 * 0x36) ∧
    0x86 + 256 * 0xA6 + 65536 * 0x10 + 16777216 * 0x36 < 2 ^ 32 :=
  header_reader_layout (List.replicate 10 0) 0x86 0xA6 0x10 0x36 [9, 9]
    (by decide) (by decide) (by decide) (by decide) (by decide)

/-- C5: Header Reader rejects non-archives — whatever the rest of the file
holds, if its first 4 bytes are not the signature the reader returns the
failure value rather than any checksum, and the Extractor then fails
without attempting any decryption (the result is `none` for every possible
zip entry, so the entry, and hence the password check, is never consulted). -/
theorem header_reader_rejects (d : DiskFile) (hsig : d.raw.take 4 ≠ sigBytes) :
    calculate_crc32_from_zip d.raw = none ∧ extract_encrypted_zip d = none := by
  have hnone : calculate_crc32_from_zip d.raw = none := by
    unfold calculate_crc32_from_zip
    rw [if_neg hsig]
  refine ⟨hnone, ?_⟩
  unfold extract_encrypted_zip
  rw [hnone]

/-- C5 witness: a three-byte non-archive that nevertheless carries a
decryptable entry; the extractor still fails. -/
theorem header_reader_rejects_witness :
    calculate_crc32_from_zip (DiskFile.mk [1, 2, 3] (some ("x", ⟨['a'], [7]⟩))).raw = none ∧
    extract_encrypted_zip (DiskFile.mk [1, 2, 3] (some ("x", ⟨['a'], [7]⟩))) = none :=
  header_reader_rejects (DiskFile.mk [1, 2, 3] (some ("x", ⟨['a'], [7]⟩))) (by decide)

/-- C8: Truncated archive with valid signature — a file that starts with
the signature but is shorter than 18 bytes does not fail: the reader
returns the little-endian value of whatever bytes remain after offset 14,
and in particular 0 when the file has 14 or fewer bytes. -/
theorem header_reader_truncated (file : List Nat) (hsig : file.take 4 = sigBytes)
    (hlen : file.length < 18) :
    calculate_crc32_from_zip file = some (fromLE (file.drop 14)) ∧
    (file.length ≤ 14 → calculate_crc32_from_zip file = some 0) := by
  have hmain : calculate_crc32_from_zip file = some (fromLE (file.drop 14)) := by
    unfold calculate_crc32_from_zip
    rw [if_pos hsig]
    have hshort : (file.drop 14).length ≤ 4 := by
      rw [List.length_drop]; omega
    rw [List.take_of_length_le hshort]
  refine ⟨hmain, fun h14 => ?_⟩
  rw [hmain]
  have hnil : file.drop 14 = [] := List.drop_eq_nil_of_le h14
  rw [hnil]
  rfl

/-- C8 witness: a 14-byte file — the valid signature followed by 10 zero
bytes; the reader reports checksum 0 instead of failing. -/
theorem header_reader_truncated_witness :
    calculate_crc32_from_zip (sigBytes ++ List.replicate 10 0)
        = some (fromLE ((sigBytes ++ List.replicate 10 0).drop 14)) ∧
    calculate_crc32_from_zip (sigBytes ++ List.replicate 10 0) = some 0 :=
  ⟨(header_reader_truncated (sigBytes ++ List.replicate 10 0) (by decide) (by decide)).1,
   (header_reader_truncated (sigBytes ++ List.replicate 10 0) (by decide) (by decide)).2
     (by decide)⟩

/-! ### Batch orchestration (encrypt pipeline, passwordcrc-batch.py) -/

/-- A file system for the encrypt pipeline: path to raw bytes, `none` when
`os.path.isfile` is false. -/
def FS : Type := String → Option (List Nat)

/-- The per-file reports `process_files` prints, in order. -/
inductive BAction where
  | missing (p : String)
  | encrypted (p : String) (crc : Nat)
  | failed (p : String)
  | deleted (p : String)
deriving DecidableEq

/-- Remove a path from the file system (`os.remove`). -/
def fsRemove (fs : FS) (p : String) : FS := fun q => if q = p then none else fs q

/-- One iteration of the `process_files` loop of passwordcrc-batch.py
lines 51-73: skip a missing file with an error report; otherwise attempt
`create_encrypted_zip` — `encOk` models whether that call raises (disk
full, unreadable source, ...), its failure being caught and reported; on
success, and only then, delete the source when asked to. -/
def process_one_batch (encOk : String → Bool) (delete : Bool) (fs : FS) (p : String) :
    FS × List BAction :=
  match fs p with
  | none => (fs, [BAction.missing p])
  | some content =>
    if encOk p then
      if delete then
        (fsRemove fs p, [BAction.encrypted p (calculate_crc32 8192 content), BAction.deleted p])
      else
        (fs, [BAction.encrypted p (calculate_crc32 8192 content)])
    else (fs, [BAction.failed p])

/-- `process_files` of passwordcrc-batch.py lines 51-73: the targets in
order, each processed independently, the loop never aborting. -/
def process_files_batch (encOk : String → Bool) (delete : Bool) (fs : FS) :
    List String → FS × List BAction
  | [] => (fs, [])
  | p :: ps =>
    let step := process_one_batch encOk delete fs p
    let rest := process_files_batch encOk delete step.1 ps
    (rest.1, step.2 ++ rest.2)

/-- C6: Batch partial failure — for any file system and any three targets
whose second is missing from disk (the first and third present and
encryptable), the orchestrator reports, in order, success on the first,
missing on the second, success on the third: the per-target failure is
reported and processing continues with the remaining targets. -/
theorem batch_partial_failure (encOk : String → Bool) (fs : FS)
    (p1 p2 p3 : String) (b1 b3 : List Nat)
    (h1 : fs p1 = some b1) (h2 : fs p2 = none) (h3 : fs p3 = some b3)
    (e1 : encOk p1 = true) (e3 : encOk p3 = true) :
    (process_files_batch encOk false fs [p1, p2, p3]).2 =
      [BAction.encrypted p1 (calculate_crc32 8192 b1),
       BAction.missing p2,
       BAction.encrypted p3 (calculate_crc32 8192 b3)] := by
  simp [process_files_batch, process_one_batch, h1, h2, h3, e1, e3]

/-- C6 witness: files "a" and "c" on disk, "b" absent. -/
theorem batch_partial_failure_witness :
    (process_files_batch (fun _ => true) false
        (fun q => if q = "a" then some [1] else if q = "c" then some [2, 3] else none)
        ["a", "b", "c"]).2 =
      [BAction.encrypted "a" (calculate_crc32 8192 [1]),
       BAction.missing "b",
       BAction.encrypted "c" (calculate_crc32 8192 [2, 3])] :=
  batch_partial_failure (fun _ => true)
    (fun q => if q = "a" then some [1] else if q = "c" then some [2, 3] else none)
    "a" "b" "c" [1] [2, 3] (by decide) (by decide) (by decide) rfl rfl

/-- `extract_encrypted_zip` with the delete-original option of
passwordcrc-decrypt.py lines 53-74: the source archive is removed (second
component `true`) only on the success path, after extraction completed. -/
def extract_with_delete (d : DiskFile) (delete : Bool) :
    Option (String × List Nat) × Bool :=
  match extract_encrypted_zip d with
  | some r => (some r, delete)
  | none => (none, false)

theorem process_one_batch_preserves (encOk : String → Bool) (delete : Bool)
    (fs : FS) (q p : String) (hp : encOk p = false) :
    (process_one_batch encOk delete fs q).1 p = fs p := by
  unfold process_one_batch
  match hq : fs q with
  | none => rfl
  | some content =>
    by_cases heq : encOk q
    · rw [heq]
      by_cases hdel : delete
      · subst hdel
        show fsRemove fs q p = fs p
        unfold fsRemove
        by_cases hpq : p = q
        · subst hpq; rw [hp] at heq; cases heq
        · rw [if_neg hpq]
      · simp [hdel]
    · simp [heq]

theorem process_one_batch_none (encOk : String → Bool) (delete : Bool)
    (fs : FS) (q p : String) (hp : fs p = none) :
    (process_one_batch encOk delete fs q).1 p = none := by
  unfold process_one_batch
  match hq : fs q with
  | none => exact hp
  | some content =>
    by_cases heq : encOk q
    · rw [heq]
      by_cases hdel : delete
      · subst hdel
        show fsRemove fs q p = none
        unfold fsRemove
        by_cases hpq : p = q
        · rw [if_pos hpq]
        · rw [if_neg hpq]; exact hp
      · simp [hdel]; exact hp
    · simp [heq]; exact hp

/-- C10: No deletion on failure — (i) a target whose encryption fails
(raises) is left untouched on the file system by the whole batch, whatever
the delete option; (ii) a target that never existed still does not exist
afterwards (deletion only follows a successful operation); (iii) in the
decrypt pipeline, when extraction fails the source archive is not deleted
even with the delete option enabled. -/
theorem no_deletion_on_failure (encOk : String → Bool) (delete : Bool) (fs : FS)
    (paths : List String) (p : String) (d : DiskFile)
    (hfail : encOk p = false) (hnone : extract_encrypted_zip d = none) :
    (process_files_batch encOk delete fs paths).1 p = fs p ∧
    ((fs p = none) → (process_files_batch encOk delete fs paths).1 p = none) ∧
    (extract_with_delete d true).2 = false := by
  refine ⟨?_, ?_, ?_⟩
  · induction paths generalizing fs with
    | nil => rfl
    | cons q ps ih =>
      show (process_files_batch encOk delete (process_one_batch encOk delete fs q).1 ps).1 p = fs p
      rw [ih (process_one_batch encOk delete fs q).1]
      exact process_one_batch_preserves encOk delete fs q p hfail
  · intro hp
    induction paths generalizing fs with
    | nil => exact hp
    | cons q ps ih =>
      show (process_files_batch encOk delete (process_one_batch encOk delete fs q).1 ps).1 p = none
      exact ih _ (process_one_batch_none encOk delete fs q p hp)
  · unfold extract_with_delete
    rw [hnone]

/-- C10 witness: a batch over ["a", "b"] with delete enabled where
encrypting "b" fails, and a malformed archive whose extraction fails:
"b" survives on disk, the missing "z" stays missing, and the failed
archive is not deleted. -/
theorem no_deletion_on_failure_witness :
    (process_files_batch (fun q => q = "a") true
        (fun q => if q = "a" then some [1] else if q = "b" then some [2] else none)
        ["a", "b"]).1 "b" =
      (fun q => if q = "a" then some [1] else if q = "b" then some ([2] : List Nat) else none) "b" ∧
    ((fun q => if q = "a" then some [1] else if q = "b" then some ([2] : List Nat) else none) "b" = none →
      (process_files_batch (fun q => q = "a") true
        (fun q => if q = "a" then some [1] else if q = "b" then some [2] else none)
        ["a", "b"]).1 "b" = none) ∧
    (extract_with_delete (DiskFile.mk [1, 2, 3] none) true).2 = false :=
  no_deletion_on_failure (fun q => q = "a") true
    (fun q => if q = "a" then some [1] else if q = "b" then some [2] else none)
    ["a", "b"] "b" (DiskFile.mk [1, 2, 3] none) (by decide) (by decide)

/-! ### Batch orchestration (decrypt pipeline, passwordcrc-decrypt.py) -/

/-- A file system for the decrypt pipeline: path to on-disk file. -/
def DFS : Type := String → Option DiskFile

/-- The per-file reports of the decrypt `process_files`, in order. -/
inductive DAction where
  | missing (p : String)
  | notZip (p : String)
  | extractFailed (p : String)
  | extracted (p : String) (name : String) (content : List Nat)
  | deletedZip (p : String)
deriving DecidableEq

/-- `str.lower` restricted to ASCII letters, as applied to a path. -/
def lowerChar (c : Char) : Char :=
  if 'A' ≤ c ∧ c ≤ 'Z' then Char.ofNat (c.toNat + 32) else c

/-- `file_path.lower().endswith('.zip')` — passwordcrc-decrypt.py line 85. -/
def endsWithZipLower (p : String) : Bool :=
  List.isSuffixOf ['.', 'z', 'i', 'p'] (p.toList.map lowerChar)

/-- Remove a path from the decrypt-side file system (`os.remove`). -/
def dfsRemove (fs : DFS) (p : String) : DFS := fun q => if q = p then none else fs q

/-- One iteration of the `process_files` loop of passwordcrc-decrypt.py
lines 77-89: a missing path is reported and skipped; a path whose
lowercased name does not end in ".zip" is reported and skipped before the
archive is opened; otherwise the archive is extracted, and on success, and
only then, deleted when asked to. -/
def process_one_decrypt (delete : Bool) (fs : DFS) (p : String) : DFS × List DAction :=
  match fs p with
  | none => (fs, [DAction.missing p])
  | some d =>
    if endsWithZipLower p = false then (fs, [DAction.notZip p])
    else
      match extract_encrypted_zip d with
      | none => (fs, [DAction.extractFailed p])
      | some (name, content) =>
        if delete then
          (dfsRemove fs p, [DAction.extracted p name content, DAction.deletedZip p])
        else
          (fs, [DAction.extracted p name content])

/-- `process_files` of passwordcrc-decrypt.py lines 77-89 over an explicit
path list (exactly what `main` passes for the files option). -/
def process_files_decrypt (delete : Bool) (fs : DFS) :
    List String → DFS × List DAction
  | [] => (fs, [])
  | p :: ps =>
    let step := process_one_decrypt delete fs p
    let rest := process_files_decrypt delete step.1 ps
    (rest.1, step.2 ++ rest.2)

theorem process_files_decrypt_nil (delete : Bool) (fs : DFS) :
    process_files_decrypt delete fs [] = (fs, []) := rfl

theorem process_files_decrypt_cons (delete : Bool) (fs : DFS) (p : String) (ps : List String) :
    process_files_decrypt delete fs (p :: ps) =
      ((process_files_decrypt delete (process_one_decrypt delete fs p).1 ps).1,
       (process_one_decrypt delete fs p).2 ++
         (process_files_decrypt delete (process_one_decrypt delete fs p).1 ps).2) := rfl

theorem process_files_decrypt_append (delete : Bool) (fs : DFS) (l1 l2 : List String) :
    process_files_decrypt delete fs (l1 ++ l2) =
      ((process_files_decrypt delete (process_files_decrypt delete fs l1).1 l2).1,
       (process_files_decrypt delete fs l1).2 ++
         (process_files_decrypt delete (process_files_decrypt delete fs l1).1 l2).2) := by
  induction l1 generalizing fs with
  | nil => simp [process_files_decrypt_nil]
  | cons q qs ih =>
    rw [List.cons_append, process_files_decrypt_cons, ih, process_files_decrypt_cons]
    simp [List.append_assoc]

/-- C9: Mandatory .zip filter in the decrypt pipeline — take any explicit
file list containing a path `p` (targets `pre` before it, `post` after it)
that exists on disk at the moment it is reached but whose lowercased name
does not end in ".zip": the processor emits exactly the not-a-zip report
for it — no extraction, no deletion — the file system is untouched at that
step, and processing continues with `post`. -/
theorem decrypt_zip_filter_mandatory (delete : Bool) (fs : DFS)
    (pre post : List String) (p : String) (d : DiskFile)
    (hfs : (process_files_decrypt delete fs pre).1 p = some d)
    (hzip : endsWithZipLower p = false) :
    (process_files_decrypt delete fs (pre ++ p :: post)).2 =
      (process_files_decrypt delete fs pre).2 ++
        DAction.notZip p ::
          (process_files_decrypt delete (process_files_decrypt delete fs pre).1 post).2 := by
  rw [process_files_decrypt_append]
  have hstep : process_one_decrypt delete (process_files_decrypt delete fs pre).1 p =
      ((process_files_decrypt delete fs pre).1, [DAction.notZip p]) := by
    unfold process_one_decrypt
    rw [hfs]
    simp [hzip]
  show (process_files_decrypt delete fs pre).2 ++
      (process_files_decrypt delete (process_files_decrypt delete fs pre).1 (p :: post)).2 = _
  rw [process_files_decrypt_cons, hstep]
  simp

/-- C9 witness: the explicit list ["a.txt"] whose single existing target is
not named .zip — it is rejected with the not-a-zip report and nothing else
happens. -/
theorem decrypt_zip_filter_mandatory_witness :
    (process_files_decrypt true
        (fun q => if q = "a.txt" then some (DiskFile.mk [1] none) else none)
        ([] ++ "a.txt" :: [])).2 =
      (process_files_decrypt true
        (fun q => if q = "a.txt" then some (DiskFile.mk [1] none) else none) []).2 ++
        DAction.notZip "a.txt" ::
          (process_files_decrypt true
            (process_files_decrypt true
              (fun q => if q = "a.txt" then some (DiskFile.mk [1] none) else none) []).1 []).2 :=
  decrypt_zip_filter_mandatory true
    (fun q => if q = "a.txt" then some (DiskFile.mk [1] none) else none)
    [] [] "a.txt" (DiskFile.mk [1] none) (by decide) (by decide)

/-! ### The organize-by-run variant (passwordcrc-date.py)

Paths are modelled as lists of components; `os.path.join` appends a
component, `os.path.dirname` drops the last component, `os.path.basename`
takes it.  `datetime.now()` is modelled by a clock function from the
number of preceding encryption attempts of the run to the formatted
`YYYY-MM-DD-HH-MM-SS` string. -/

/-- The index at which `os.path.splitext` cuts a file name: the last dot
that lies beyond the leading run of dots, if any. -/
def extSplitIndex (cs : List Char) : Option Nat :=
  let lead := (cs.takeWhile (fun c => c = '.')).length
  ((List.range cs.length).filter
    (fun i => decide (lead ≤ i) && decide (cs.getD i ' ' = '.'))).getLast?

/-- `os.path.splitext`: split a file name into stem and extension. -/
def splitext (name : String) : String × String :=
  match extSplitIndex name.toList with
  | none => (name, "")
  | some i => (String.mk (name.toList.take i), String.mk (name.toList.drop i))

theorem splitext_concat (name : String) : (splitext name).1 ++ (splitext name).2 = name := by
  cases name with
  | mk data =>
    unfold splitext
    cases hd : extSplitIndex (String.mk data).toList with
    | none =>
      show String.mk (data ++ ("" : String).data) = String.mk data
      rw [List.append_nil]
    | some i =>
      show String.mk ((String.mk data).toList.take i ++ ((String.mk data).toList.drop i)) =
        String.mk data
      rw [List.take_append_drop]
      rfl

/-- `create_encrypted_zip` of passwordcrc-date.py lines 24-52: like the
batch variant, but the archive is placed inside a subdirectory of the
target directory named with `datetime.now().strftime(...)` — the `now`
argument here — the target directory being the explicit output directory
if given, else the source file's directory.  Returns the archive path, the
archive, and the checksum. -/
def create_encrypted_zip_date (content : List Nat) (filePath : List String)
    (output_dir : Option (List String)) (now : String) (meta rest : List Nat) :
    List String × DiskFile × Nat :=
  let crc32_value := calculate_crc32 8192 content
  let file_name := filePath.getLastD ""
  let stemext := splitext file_name
  let dir := match output_dir with | none => filePath.dropLast | some d2 => d2
  let full_output_dir := dir ++ [now]
  (full_output_dir ++ [stemext.1 ++ stemext.2 ++ ".zip"],
   pyzipper_write (pw_writer crc32_value) file_name content meta rest,
   crc32_value)

/-- The reports of the date variant's `process_files`, carrying the
produced archive path. -/
inductive DateOutcome where
  | missing (p : List String)
  | created (archivePath : List String) (crc : Nat)
  | failed (p : List String)
deriving DecidableEq

/-- `process_files` of passwordcrc-date.py lines 55-68: each existing
target is encrypted with the timestamp taken at its own
`create_encrypted_zip` call (`clock k` for the k-th attempted target of
the run); header metadata bytes do not affect placement and are taken as
zeros here. -/
def process_files_date (encOk : List String → Bool)
    (fs2 : List String → Option (List Nat)) (output_dir : Option (List String))
    (clock : Nat → String) : List (List String) → Nat → List DateOutcome
  | [], _ => []
  | p :: ps, k =>
    match fs2 p with
    | none => DateOutcome.missing p :: process_files_date encOk fs2 output_dir clock ps k
    | some content =>
      if encOk p then
        DateOutcome.created
          (create_encrypted_zip_date content p output_dir (clock k)
            (List.replicate 10 0) []).1
          (calculate_crc32 8192 content) ::
          process_files_date encOk fs2 output_dir clock ps (k + 1)
      else DateOutcome.failed p :: process_files_date encOk fs2 output_dir clock ps (k + 1)

/-- The directory an outcome's archive landed in. -/
def archiveDirOf : DateOutcome → List String
  | DateOutcome.created archivePath _ => archivePath.dropLast
  | DateOutcome.missing _ => []
  | DateOutcome.failed _ => []

/-- A two-file run in directory "d". -/
def cexFs : List String → Option (List Nat) := fun p =>
  if p = ["d", "a"] then some [1] else if p = ["d", "b"] then some [2] else none

/-- A run whose second encryption call happens one second after the first. -/
def cexClock : Nat → String := fun k =>
  if k = 0 then "2024-01-01-00-00-00" else "2024-01-01-00-00-01"

/-- C7 counterexample: the timestamp is taken per file inside
`create_encrypted_zip`, not once per run — a run over two files whose
`datetime.now()` calls fall in different seconds places the two archives
in two different timestamped subdirectories, so the run does not use a
single subdirectory for all of its files. -/
theorem date_variant_not_single_subdir :
    (process_files_date (fun _ => true) cexFs none cexClock [["d", "a"], ["d", "b"]] 0).map
        archiveDirOf =
      [["d", "2024-01-01-00-00-00"], ["d", "2024-01-01-00-00-01"]] ∧
    (["d", "2024-01-01-00-00-00"] : List String) ≠ ["d", "2024-01-01-00-00-01"] := by
  constructor
  · decide
  · decide

/-- C7 (amended): in the timestamped variant, each archive is nested under
a subdirectory named with the timestamp taken at that file's own
encryption call — all files of a run share the subdirectory only when
their calls format to the same second — and that subdirectory is placed
under the explicit output directory if given, else under the source
file's directory. -/
theorem date_variant_placement (content : List Nat) (filePath : List String)
    (output_dir : Option (List String)) (now : String) (meta rest : List Nat) :
    (create_encrypted_zip_date content filePath output_dir now meta rest).1 =
      (match output_dir with | none => filePath.dropLast | some d2 => d2) ++
        [now] ++ [filePath.getLastD "" ++ ".zip"] := by
  unfold create_encrypted_zip_date
  simp only [splitext_concat]

end FileEnc
